import Mathlib

set_option maxRecDepth 4000

/-!
# Multisig transaction approval engine — shallow embedding

This file embeds the multisig transaction approval engine of
`src/contracts/transactions.rs` and `src/contracts/multisig.rs` (Soroban
contract) and proves the spec's claims about it.

Modelling conventions:
* Account identifiers (`Address`) are `Nat`; `Symbol` payloads are opaque `Nat`
  tags.
* Contract storage is a `ContractState` record: the instance keys
  (`Admin`, `Signers`, `Threshold`, `HighValueThreshold`, `NextTxId`) are plain
  fields, the persistent keyed entries (`PendingTx(id)`, `ApprovalCount(id)`,
  `Balance(addr)`) are total functions incorporating the source's
  `unwrap_or` defaults (`none`, `0`, `0`), and the `Approval(id, signer)` marks
  are the list of pairs present in storage.
* `i128` / `u64` / `u32` arithmetic is `Int` / `Nat` with explicit range checks
  mirroring `checked_add` / `checked_sub`.
* Every entry point returns `Except MultiSigError …`. An `.error e` result
  models `panic_with_error!`: the host aborts the whole invocation and no
  storage write performed inside it is committed, so the persistent state
  observed after a failing call is exactly the state before it. The in-flight
  writes of an aborted call (e.g. the `executed := true` write that the code
  performs before the ledger transfer inside `approve`) are therefore never
  visible.
* `require_auth()` is the external identity capability; the claims all speak
  about authorized calls, so it is modelled as satisfied.
-/

abbrev Addr := Nat

def i128Max : Int := 2 ^ 127 - 1

def i128Min : Int := -(2 ^ 127)

def u64Max : Nat := 2 ^ 64 - 1

def u32Max : Nat := 2 ^ 32 - 1

/-- `i128::checked_add`. -/
def checkedAddI128 (a b : Int) : Option Int :=
  if i128Min ≤ a + b ∧ a + b ≤ i128Max then some (a + b) else none

/-- `i128::checked_sub`. -/
def checkedSubI128 (a b : Int) : Option Int :=
  if i128Min ≤ a - b ∧ a - b ≤ i128Max then some (a - b) else none

/-- `u64::checked_add`. -/
def checkedAddU64 (a b : Nat) : Option Nat :=
  if a + b ≤ u64Max then some (a + b) else none

/-- `u32::checked_add`. -/
def checkedAddU32 (a b : Nat) : Option Nat :=
  if a + b ≤ u32Max then some (a + b) else none

/-- `PendingTx` record of `multisig.rs` (`from`/`to` renamed `fromAddr`/`toAddr`:
`from` is a Lean keyword). -/
structure PendingTx where
  id : Nat
  fromAddr : Addr
  toAddr : Addr
  amount : Int
  payload : Nat
  asset : Option Addr
  created_at : Nat
  executed : Bool
deriving DecidableEq, Repr

/-- `MultiSigError` of `multisig.rs`. -/
inductive MultiSigError where
  | NotInitialized
  | AlreadyInitialized
  | Unauthorized
  | InvalidThreshold
  | DuplicateSigner
  | InvalidAmount
  | PendingTxNotFound
  | UnauthorizedSigner
  | DuplicateApproval
  | AlreadyExecuted
  | InsufficientBalance
  | MultisigNotConfigured
  | Overflow
deriving DecidableEq, Repr

/-- The contract's storage, one field per `DataKey` family, with the source's
`unwrap_or` read defaults baked into the field types. -/
structure ContractState where
  admin : Option Addr
  signers : List Addr
  threshold : Nat
  highValueThreshold : Int
  nextTxId : Nat
  pendingTxs : Nat → Option PendingTx
  approvals : List (Nat × Addr)
  approvalCounts : Nat → Nat
  balances : Addr → Int

/-- Pointwise update of a keyed storage map (`storage().set` on one key). -/
def updFn {α : Type} (f : Nat → α) (k : Nat) (v : α) : Nat → α :=
  fun x => if x = k then v else f x

/-- Storage state with no key set: every read yields its `unwrap_or` default
(`Admin` absent, empty signers, threshold 0, high-value threshold `i128::MAX`,
next id 0, no pending records, counts 0, balances 0). -/
def initState : ContractState :=
  { admin := none
    signers := []
    threshold := 0
    highValueThreshold := i128Max
    nextTxId := 0
    pendingTxs := fun _ => none
    approvals := []
    approvalCounts := fun _ => 0
    balances := fun _ => 0 }

/-- `initialize_state` of `multisig.rs` (renamed). -/
def initContract (s : ContractState) (adminAddr : Addr) :
    Except MultiSigError ContractState :=
  match s.admin with
  | some _ => .error .AlreadyInitialized
  | none =>
    .ok { s with admin := some adminAddr, signers := [], threshold := 0,
                 highValueThreshold := i128Max, nextTxId := 0 }

/-- `get_admin`. -/
def get_admin (s : ContractState) : Except MultiSigError Addr :=
  match s.admin with
  | none => .error .NotInitialized
  | some a => .ok a

/-- `require_admin` (the caller's `require_auth` is the external capability). -/
def require_admin (s : ContractState) (caller : Addr) :
    Except MultiSigError Unit :=
  match s.admin with
  | none => .error .NotInitialized
  | some a => if a = caller then .ok () else .error .Unauthorized

/-- `get_signers`. -/
def get_signers (s : ContractState) : List Addr := s.signers

/-- `get_threshold`. -/
def get_threshold (s : ContractState) : Nat := s.threshold

/-- `get_high_value_threshold`. -/
def get_high_value_threshold (s : ContractState) : Int := s.highValueThreshold

/-- `is_signer`: linear scan of the configured signer list. -/
def is_signer (s : ContractState) (a : Addr) : Bool :=
  decide (a ∈ s.signers)

/-- `require_signer`. -/
def require_signer (s : ContractState) (a : Addr) : Except MultiSigError Unit :=
  if is_signer s a then .ok () else .error .UnauthorizedSigner

/-- `ensure_multisig_configured`. -/
def ensure_multisig_configured (s : ContractState) : Except MultiSigError Unit :=
  if s.signers.length = 0 ∨ s.threshold = 0 ∨ s.threshold > s.signers.length then
    .error .MultisigNotConfigured
  else .ok ()

/-- `next_tx_id`: increments the persisted counter, `Overflow` on `u64`
exhaustion. -/
def next_tx_id (s : ContractState) : Except MultiSigError (Nat × ContractState) :=
  match checkedAddU64 s.nextTxId 1 with
  | none => .error .Overflow
  | some next => .ok (next, { s with nextTxId := next })

/-- `has_approval`: presence of the `Approval(tx_id, signer)` storage key. -/
def has_approval (s : ContractState) (txId : Nat) (a : Addr) : Bool :=
  decide ((txId, a) ∈ s.approvals)

/-- `get_approval_count` (`unwrap_or(0)`). -/
def get_approval_count (s : ContractState) (txId : Nat) : Nat :=
  s.approvalCounts txId

/-- `record_approval`: duplicate check, mark write, checked count increment. -/
def record_approval (s : ContractState) (txId : Nat) (a : Addr) :
    Except MultiSigError (Nat × ContractState) :=
  if has_approval s txId a then .error .DuplicateApproval
  else
    let s1 : ContractState := { s with approvals := (txId, a) :: s.approvals }
    match checkedAddU32 (get_approval_count s1 txId) 1 with
    | none => .error .Overflow
    | some next =>
      .ok (next, { s1 with approvalCounts := updFn s1.approvalCounts txId next })

/-- `true` iff some signer appears twice in the list — the pairwise `i < j`
scan of `validate_signer_config`. -/
def hasDuplicate : List Addr → Bool
  | [] => false
  | a :: rest => decide (a ∈ rest) || hasDuplicate rest

/-- `validate_signer_config`: bounds first (one shared `InvalidThreshold`
error), then the pairwise duplicate scan. -/
def validate_signer_config (signers : List Addr) (threshold : Nat) :
    Except MultiSigError Unit :=
  if signers.length = 0 ∨ threshold = 0 ∨ threshold > signers.length then
    .error .InvalidThreshold
  else if hasDuplicate signers then .error .DuplicateSigner
  else .ok ()

/-- `set_signers` of `multisig.rs`. -/
def set_signers (s : ContractState) (caller : Addr) (signers : List Addr)
    (threshold : Nat) : Except MultiSigError ContractState :=
  match require_admin s caller with
  | .error e => .error e
  | .ok _ =>
    match validate_signer_config signers threshold with
    | .error e => .error e
    | .ok _ => .ok { s with signers := signers, threshold := threshold }

/-- `set_high_value_threshold` of `multisig.rs`. -/
def set_high_value_threshold (s : ContractState) (caller : Addr) (amount : Int) :
    Except MultiSigError ContractState :=
  match require_admin s caller with
  | .error e => .error e
  | .ok _ =>
    if amount < 0 then .error .InvalidAmount
    else .ok { s with highValueThreshold := amount }

/-- `TransactionsContract::balance_of` (`unwrap_or(0)`). -/
def balance_of (s : ContractState) (u : Addr) : Int := s.balances u

/-- `TransactionsContract::set_balance`. -/
def set_balance (s : ContractState) (caller user : Addr) (amount : Int) :
    Except MultiSigError ContractState :=
  match require_admin s caller with
  | .error e => .error e
  | .ok _ =>
    if amount < 0 then .error .InvalidAmount
    else .ok { s with balances := updFn s.balances user amount }

/-- `TransactionsContract::execute_transfer`: sufficiency check, checked
subtraction and addition, then the write to `Balance(from)` followed by the
write to `Balance(to)` (in that order — for `from = to` the second write
overwrites the first). -/
def execute_transfer (s : ContractState) (f t : Addr) (amount : Int) :
    Except MultiSigError ContractState :=
  let from_balance := balance_of s f
  if from_balance < amount then .error .InsufficientBalance
  else
    let to_balance := balance_of s t
    match checkedSubI128 from_balance amount with
    | none => .error .Overflow
    | some new_from_balance =>
      match checkedAddI128 to_balance amount with
      | none => .error .Overflow
      | some new_to_balance =>
        .ok { s with
              balances := updFn (updFn s.balances f new_from_balance) t
                new_to_balance }

/-- `TransactionsContract::submit_transaction`. `now` stands for
`env.ledger().timestamp()`; the sender's `require_auth` is the external
capability (the claims quantify over authorized calls). -/
def submit_transaction (s : ContractState) (f t : Addr) (amount : Int)
    (payload : Nat) (asset : Option Addr) (now : Nat) :
    Except MultiSigError (Option Nat × ContractState) :=
  if amount ≤ 0 then .error .InvalidAmount
  else
    let high_value_threshold := get_high_value_threshold s
    if amount < high_value_threshold then
      match execute_transfer s f t amount with
      | .error e => .error e
      | .ok s1 => .ok (none, s1)
    else
      match ensure_multisig_configured s with
      | .error e => .error e
      | .ok _ =>
        match next_tx_id s with
        | .error e => .error e
        | .ok (txId, s1) =>
          let pending_tx : PendingTx :=
            { id := txId, fromAddr := f, toAddr := t, amount := amount,
              payload := payload, asset := asset, created_at := now,
              executed := false }
          .ok (some txId,
            { s1 with
              pendingTxs := updFn s1.pendingTxs txId (some pending_tx)
              approvalCounts := updFn s1.approvalCounts txId 0 })

/-- `TransactionsContract::approve`: the signer's `require_auth` plus
`require_signer` come first, then the pending-record lookup, the
`executed` guard, `record_approval`, and — when the new count reaches the
current threshold — the `executed := true` record write followed by the ledger
transfer on the stored fields. -/
def approve (s : ContractState) (txId : Nat) (signer : Addr) :
    Except MultiSigError ContractState :=
  match require_signer s signer with
  | .error e => .error e
  | .ok _ =>
    match s.pendingTxs txId with
    | none => .error .PendingTxNotFound
    | some pending_tx =>
      if pending_tx.executed then .error .AlreadyExecuted
      else
        match record_approval s txId signer with
        | .error e => .error e
        | .ok (approvals, s1) =>
          let threshold := get_threshold s1
          if approvals ≥ threshold then
            let executed_tx : PendingTx := { pending_tx with executed := true }
            let s2 : ContractState :=
              { s1 with pendingTxs := updFn s1.pendingTxs txId (some executed_tx) }
            match execute_transfer s2 executed_tx.fromAddr executed_tx.toAddr
                executed_tx.amount with
            | .error e => .error e
            | .ok s3 => .ok s3
          else .ok s1

/-- `get_pending_tx`. -/
def get_pending_tx (s : ContractState) (txId : Nat) : Option PendingTx :=
  s.pendingTxs txId

/-- One committed (successful) invocation of any state-mutating entry point. -/
inductive Step : ContractState → ContractState → Prop
  | init_step {s s' : ContractState} {a : Addr} :
      initContract s a = .ok s' → Step s s'
  | set_signers_step {s s' : ContractState} {caller : Addr} {sg : List Addr}
      {t : Nat} : set_signers s caller sg t = .ok s' → Step s s'
  | set_hvt_step {s s' : ContractState} {caller : Addr} {amount : Int} :
      set_high_value_threshold s caller amount = .ok s' → Step s s'
  | set_balance_step {s s' : ContractState} {caller user : Addr} {amount : Int} :
      set_balance s caller user amount = .ok s' → Step s s'
  | submit_step {s s' : ContractState} {f t : Addr} {amount : Int}
      {payload : Nat} {asset : Option Addr} {now : Nat} {r : Option Nat} :
      submit_transaction s f t amount payload asset now = .ok (r, s') → Step s s'
  | approve_step {s s' : ContractState} {txId : Nat} {signer : Addr} :
      approve s txId signer = .ok s' → Step s s'

/-- States reachable from empty storage by committed invocations (a failing
invocation aborts and commits nothing, so it does not move the state). -/
inductive Reachable : ContractState → Prop
  | init : Reachable initState
  | step {s s' : ContractState} : Reachable s → Step s s' → Reachable s'

/-- Successive `approve` calls on one transaction id by the listed signers;
the first aborted call aborts the whole run. -/
def approveRun (s : ContractState) (txId : Nat) :
    List Addr → Except MultiSigError ContractState
  | [] => .ok s
  | a :: rest =>
    match approve s txId a with
    | .error e => .error e
    | .ok s' => approveRun s' txId rest

/-! ## Helper lemmas -/

theorem updFn_same {α : Type} (f : Nat → α) (k : Nat) (v : α) :
    updFn f k v k = v := by
  simp [updFn]

theorem updFn_other {α : Type} (f : Nat → α) (k x : Nat) (v : α) (h : x ≠ k) :
    updFn f k v x = f x := by
  simp [updFn, h]

theorem ensure_configured_ok (s : ContractState) (h1 : s.signers.length ≠ 0)
    (h2 : s.threshold ≠ 0) (h3 : s.threshold ≤ s.signers.length) :
    ensure_multisig_configured s = .ok () := by
  have h : ¬(s.signers.length = 0 ∨ s.threshold = 0 ∨
      s.threshold > s.signers.length) := by
    push_neg
    exact ⟨h1, h2, h3⟩
  unfold ensure_multisig_configured
  rw [if_neg h]

theorem next_tx_id_ok (s : ContractState) (h : s.nextTxId + 1 ≤ u64Max) :
    next_tx_id s = .ok (s.nextTxId + 1, { s with nextTxId := s.nextTxId + 1 }) := by
  unfold next_tx_id checkedAddU64
  rw [if_pos h]

theorem execute_transfer_eq_ok (s : ContractState) (f t : Addr) (amount : Int)
    (hsuf : amount ≤ s.balances f)
    (hhi : s.balances f - amount ≤ i128Max)
    (hlo2 : i128Min ≤ s.balances t + amount)
    (hhi2 : s.balances t + amount ≤ i128Max) :
    execute_transfer s f t amount =
      .ok { s with
            balances := updFn (updFn s.balances f (s.balances f - amount)) t
              (s.balances t + amount) } := by
  have hlo : i128Min ≤ s.balances f - amount := by
    have : (0 : Int) ≤ s.balances f - amount := by omega
    have hm : i128Min ≤ (0 : Int) := by norm_num [i128Min]
    omega
  unfold execute_transfer balance_of checkedSubI128 checkedAddI128
  rw [if_neg (not_lt.mpr hsuf)]
  simp only [if_pos (And.intro hlo hhi), if_pos (And.intro hlo2 hhi2)]

theorem execute_transfer_insufficient (s : ContractState) (f t : Addr)
    (amount : Int) (h : s.balances f < amount) :
    execute_transfer s f t amount = .error .InsufficientBalance := by
  unfold execute_transfer balance_of
  rw [if_pos h]

/-! ## C2 — threshold routing of `submit_transaction` -/

/-- C2: for an authorized `submit_transaction` call with `amount > 0`:
below the high-value threshold it performs the ledger transfer at once (given
sufficient balance and in-range arithmetic) and returns `None`, leaving the
pending store and counts untouched; at or above the threshold, with the
registry configured, it returns `Some` of a fresh id whose stored record has
`executed = false` and approval count `0`, and leaves every balance
unchanged. -/
theorem submit_routing (s : ContractState) (f t : Addr) (amount : Int)
    (payload : Nat) (asset : Option Addr) (now : Nat)
    (hpos : 0 < amount) :
    (amount < s.highValueThreshold →
      amount ≤ s.balances f →
      s.balances f - amount ≤ i128Max →
      i128Min ≤ s.balances t + amount →
      s.balances t + amount ≤ i128Max →
      submit_transaction s f t amount payload asset now =
        .ok (none,
          { s with
            balances := updFn (updFn s.balances f (s.balances f - amount)) t
              (s.balances t + amount) })) ∧
    (s.highValueThreshold ≤ amount →
      s.signers.length ≠ 0 → s.threshold ≠ 0 → s.threshold ≤ s.signers.length →
      s.nextTxId + 1 ≤ u64Max →
      submit_transaction s f t amount payload asset now =
        .ok (some (s.nextTxId + 1),
          { s with
            nextTxId := s.nextTxId + 1
            pendingTxs := updFn s.pendingTxs (s.nextTxId + 1)
              (some { id := s.nextTxId + 1, fromAddr := f, toAddr := t,
                      amount := amount, payload := payload, asset := asset,
                      created_at := now, executed := false })
            approvalCounts := updFn s.approvalCounts (s.nextTxId + 1) 0 })) := by
  constructor
  · intro hlt hsuf hhi hlo2 hhi2
    unfold submit_transaction get_high_value_threshold
    rw [if_neg (by omega : ¬ amount ≤ 0), if_pos hlt,
      execute_transfer_eq_ok s f t amount hsuf hhi hlo2 hhi2]
  · intro hge h1 h2 h3 hid
    unfold submit_transaction get_high_value_threshold
    rw [if_neg (by omega : ¬ amount ≤ 0), if_neg (not_lt.mpr hge),
      ensure_configured_ok s h1 h2 h3, next_tx_id_ok s hid]

/-- Concrete registry/ledger state used by several witnesses: admin `0`,
signers `[1, 2, 3]`, threshold `2`, high-value threshold `100`, account `10`
holding `1000`. -/
def wState : ContractState :=
  { admin := some 0
    signers := [1, 2, 3]
    threshold := 2
    highValueThreshold := 100
    nextTxId := 0
    pendingTxs := fun _ => none
    approvals := []
    approvalCounts := fun _ => 0
    balances := fun a => if a = 10 then 1000 else 0 }

/-- Witness for C2, low-value branch: `submit(10, 11, 50)` on `wState`
executes at once and returns `None`. -/
theorem submit_routing_witness :
    submit_transaction wState 10 11 50 0 none 0 =
      .ok (none,
        { wState with
          balances := updFn (updFn wState.balances 10 (wState.balances 10 - 50)) 11
            (wState.balances 11 + 50) }) :=
  (submit_routing wState 10 11 50 0 none 0 (by decide)).1 (by decide) (by decide)
    (by decide) (by decide) (by decide)

/-! ## C4 — self-transfer credits instead of conserving -/

/-- C4: a successful low-value self-transfer of `m` from `A` to `A` leaves
`A`'s balance at `balance(A) + m` rather than unchanged: `execute_transfer`
writes the debited balance to `Balance(A)` and the subsequent credit write to
the same key overwrites it. -/
theorem self_transfer_credits (s : ContractState) (A : Addr) (m : Int)
    (payload : Nat) (asset : Option Addr) (now : Nat)
    (hpos : 0 < m) (hle : m ≤ s.balances A) (hhv : m < s.highValueThreshold)
    (hhi : s.balances A + m ≤ i128Max) :
    ∃ s', submit_transaction s A A m payload asset now = .ok (none, s') ∧
      s'.balances A = s.balances A + m := by
  have hhi1 : s.balances A - m ≤ i128Max := by omega
  have hlo2 : i128Min ≤ s.balances A + m := by
    have : i128Min ≤ (0 : Int) := by norm_num [i128Min]
    omega
  simp only [submit_transaction, get_high_value_threshold,
    if_neg (by omega : ¬ m ≤ 0), if_pos hhv,
    execute_transfer_eq_ok s A A m hle hhi1 hlo2 hhi]
  exact ⟨_, rfl, by simp [updFn]⟩

/-- Witness for C4: on `wState`, `submit(10, 10, 50)` raises account `10` from
`1000` to `1050`. -/
theorem self_transfer_credits_witness :
    ∃ s', submit_transaction wState 10 10 50 0 none 0 = .ok (none, s') ∧
      s'.balances 10 = wState.balances 10 + 50 :=
  self_transfer_credits wState 10 50 0 none 0 (by decide) (by decide)
    (by decide) (by decide)

/-! ## C3 — balance conservation fails on self-transfer -/

/-- C3 (failing input): on `wState` (account `10` holds `1000`, total supply
over accounts `0..10` is `1000`), the successful self-transfer
`submit_transaction(10, 10, 50)` leaves a total of `1050`: the sum of all
balances is not conserved, contradicting the conservation claim at a
sender-equals-recipient input. -/
theorem balance_sum_not_conserved :
    ∃ s', submit_transaction wState 10 10 50 0 none 0 = .ok (none, s') ∧
      (∑ a ∈ Finset.range 11, wState.balances a) = 1000 ∧
      (∑ a ∈ Finset.range 11, s'.balances a) = 1050 := by
  refine ⟨_, rfl, by decide, by decide⟩

/-! ## C5 — approve after execution -/

/-- Registry with signers `[1]`, threshold `1`, an already-executed pending
transaction at id `1` (approved by signer `1`). -/
def execState : ContractState :=
  { admin := some 0
    signers := [1]
    threshold := 1
    highValueThreshold := 100
    nextTxId := 1
    pendingTxs := fun k =>
      if k = 1 then
        some { id := 1, fromAddr := 10, toAddr := 11, amount := 300, payload := 0,
               asset := none, created_at := 0, executed := true }
      else none
    approvals := [(1, 1)]
    approvalCounts := fun k => if k = 1 then 1 else 0
    balances := fun _ => 0 }

/-- C5 counterexample: on the executed transaction `1` of `execState`, the
approve call by account `2` — which is not a configured signer — fails with
`UnauthorizedSigner`, not `AlreadyExecuted`: the claim's "every further
approve call on that id fails with AlreadyExecuted" is false as stated. -/
theorem approve_executed_nonsigner_counterexample :
    approve execState 1 2 = .error MultiSigError.UnauthorizedSigner ∧
      MultiSigError.UnauthorizedSigner ≠ MultiSigError.AlreadyExecuted :=
  ⟨rfl, by decide⟩

/-- C5 (amended): once a pending transaction's `executed` flag is true, every
further approve call on that id fails — with `AlreadyExecuted` when the caller
is an authorized signer, with `UnauthorizedSigner` otherwise — and, the call
being aborted, it changes neither any balance nor the approval count or
marks. -/
theorem approve_after_execution_fails (s : ContractState) (txId : Nat)
    (signer : Addr) (p : PendingTx)
    (hp : s.pendingTxs txId = some p) (hex : p.executed = true) :
    approve s txId signer =
      .error (if is_signer s signer then MultiSigError.AlreadyExecuted
              else MultiSigError.UnauthorizedSigner) := by
  unfold approve require_signer
  cases h : is_signer s signer
  · simp [h]
  · simp [h, hp, hex]

/-- Witness for C5 (amended): the configured signer `1` approving the executed
transaction `1` of `execState` gets `AlreadyExecuted`. -/
theorem approve_after_execution_fails_witness :
    approve execState 1 1 = .error MultiSigError.AlreadyExecuted :=
  approve_after_execution_fails execState 1 1
    { id := 1, fromAddr := 10, toAddr := 11, amount := 300, payload := 0,
      asset := none, created_at := 0, executed := true } rfl rfl

/-! ## C6 — order of the not-found and unauthorized-signer checks -/

/-- C6 counterexample: account `2` is not a signer of `execState` and id `7`
has no pending record; `approve(7, 2)` fails with `UnauthorizedSigner`, not
the `PendingTxNotFound` the claim predicts — the signer check runs first. -/
theorem approve_missing_nonsigner_counterexample :
    approve execState 7 2 = .error MultiSigError.UnauthorizedSigner ∧
      MultiSigError.UnauthorizedSigner ≠ MultiSigError.PendingTxNotFound :=
  ⟨rfl, by decide⟩

/-- C6 (amended): `approve` fails with `PendingTxNotFound` whenever no pending
record exists for the id and the signer is authorized; the authorized-signer
check precedes the existence check, so a signer outside the registry's list
gets `UnauthorizedSigner` even on a nonexistent id. -/
theorem approve_check_order (s : ContractState) (txId : Nat) (signer : Addr) :
    (is_signer s signer = true → s.pendingTxs txId = none →
      approve s txId signer = .error MultiSigError.PendingTxNotFound) ∧
    (is_signer s signer = false →
      approve s txId signer = .error MultiSigError.UnauthorizedSigner) := by
  constructor
  · intro hs hp
    unfold approve require_signer
    simp [hs, hp]
  · intro hs
    unfold approve require_signer
    simp [hs]

/-- Witness for C6 (amended): on `execState`, signer `1` approving missing id
`7` gets `PendingTxNotFound`; non-signer `2` gets `UnauthorizedSigner`. -/
theorem approve_check_order_witness :
    approve execState 7 1 = .error MultiSigError.PendingTxNotFound ∧
      approve execState 7 2 = .error MultiSigError.UnauthorizedSigner :=
  ⟨(approve_check_order execState 7 1).1 rfl rfl,
   (approve_check_order execState 7 2).2 rfl⟩

/-! ## C7 — failing calls commit nothing -/

theorem record_approval_ok (s : ContractState) (txId : Nat) (a : Addr)
    (hdup : has_approval s txId a = false)
    (hcnt : s.approvalCounts txId + 1 ≤ u32Max) :
    record_approval s txId a =
      .ok (s.approvalCounts txId + 1,
        { s with approvals := (txId, a) :: s.approvals
                 approvalCounts := updFn s.approvalCounts txId
                   (s.approvalCounts txId + 1) }) := by
  unfold record_approval get_approval_count checkedAddU32
  simp only [hdup, Bool.false_eq_true, if_false, if_pos hcnt]

/-- Domain state with signers `[1]`, threshold `1`, an unexecuted pending
transaction `1` for `300` from account `10`, and every balance zero. -/
def poorState : ContractState :=
  { admin := some 0
    signers := [1]
    threshold := 1
    highValueThreshold := 100
    nextTxId := 1
    pendingTxs := fun k =>
      if k = 1 then
        some { id := 1, fromAddr := 10, toAddr := 11, amount := 300, payload := 0,
               asset := none, created_at := 0, executed := false }
      else none
    approvals := []
    approvalCounts := fun _ => 0
    balances := fun _ => 0 }

/-- C7: when the quorum-reaching `approve` call's ledger transfer fails for
insufficient balance, the whole call fails with `InsufficientBalance` — the
invocation aborts, so (per the abort semantics of `panic_with_error!`) no
balance changes and the transaction is not left marked executed; in
particular the in-flight `executed := true` write that the code performs
before the transfer is never committed. -/
theorem approve_transfer_failure_aborts (s : ContractState) (txId : Nat)
    (signer : Addr) (p : PendingTx)
    (hp : s.pendingTxs txId = some p) (hex : p.executed = false)
    (hsig : is_signer s signer = true)
    (hdup : has_approval s txId signer = false)
    (hcnt : s.approvalCounts txId + 1 ≤ u32Max)
    (hq : s.threshold ≤ s.approvalCounts txId + 1)
    (hins : s.balances p.fromAddr < p.amount) :
    approve s txId signer = .error MultiSigError.InsufficientBalance := by
  unfold approve require_signer get_threshold
  simp only [hsig, if_true, hp, hex, Bool.false_eq_true, if_false,
    record_approval_ok s txId signer hdup hcnt]
  rw [if_pos hq]
  simp only [execute_transfer, balance_of]
  rw [if_pos hins]

/-- Witness for C7: on `poorState` (sender balance `0`, pending amount `300`,
threshold `1`), the quorum-reaching approve by signer `1` aborts with
`InsufficientBalance`. -/
theorem approve_transfer_failure_aborts_witness :
    approve poorState 1 1 = .error MultiSigError.InsufficientBalance :=
  approve_transfer_failure_aborts poorState 1 1
    { id := 1, fromAddr := 10, toAddr := 11, amount := 300, payload := 0,
      asset := none, created_at := 0, executed := false }
    rfl rfl rfl rfl (by decide) (by decide) (by decide)

/-! ## C9 — signer configuration validation -/

/-- C9 counterexample: rejecting an empty signer list and rejecting threshold
`0` share one error value — `set_signers(admin, [], 1)` and
`set_signers(admin, [5], 0)` both fail with `InvalidThreshold` — so the code
does not reject "each with a distinct error per violated rule" (there is no
dedicated empty-list error). -/
theorem set_signers_shared_error_counterexample :
    set_signers wState 0 [] 1 = .error MultiSigError.InvalidThreshold ∧
      set_signers wState 0 [5] 0 = .error MultiSigError.InvalidThreshold :=
  ⟨rfl, rfl⟩

/-- C9 (amended): `set_signers` rejects an empty signer list, threshold `0`,
and threshold greater than the signer count all with the single
`InvalidThreshold` error; it rejects a duplicated signer (under valid bounds)
with the distinct `DuplicateSigner` error; and it accepts any duplicate-free
list with `1 ≤ threshold ≤ count` — including threshold `1` and unanimity —
replacing the stored list and threshold together and changing nothing else. -/
theorem set_signers_validation (s : ContractState) (caller : Addr)
    (sg : List Addr) (t : Nat) (hadmin : s.admin = some caller) :
    ((sg.length = 0 ∨ t = 0 ∨ t > sg.length) →
      set_signers s caller sg t = .error MultiSigError.InvalidThreshold) ∧
    (sg.length ≠ 0 → t ≠ 0 → t ≤ sg.length → hasDuplicate sg = true →
      set_signers s caller sg t = .error MultiSigError.DuplicateSigner) ∧
    (sg.length ≠ 0 → t ≠ 0 → t ≤ sg.length → hasDuplicate sg = false →
      set_signers s caller sg t =
        .ok { s with signers := sg, threshold := t }) := by
  have hra : require_admin s caller = .ok () := by
    unfold require_admin
    rw [hadmin]
    simp
  refine ⟨?_, ?_, ?_⟩
  · intro h
    simp only [set_signers, hra, validate_signer_config, if_pos h]
  · intro h1 h2 h3 hdup
    have hb : ¬(sg.length = 0 ∨ t = 0 ∨ t > sg.length) := by
      push_neg
      exact ⟨h1, h2, h3⟩
    simp only [set_signers, hra, validate_signer_config]
    rw [if_neg hb, if_pos hdup]
  · intro h1 h2 h3 hdup
    have hb : ¬(sg.length = 0 ∨ t = 0 ∨ t > sg.length) := by
      push_neg
      exact ⟨h1, h2, h3⟩
    have hdup' : ¬(hasDuplicate sg = true) := by simp [hdup]
    simp only [set_signers, hra, validate_signer_config]
    rw [if_neg hb, if_neg hdup']

/-- Witness for C9 (amended): on `wState` the admin configures `[4, 5]` with
unanimity threshold `2` successfully, and `[4, 4]` with threshold `2` is
rejected as `DuplicateSigner`. -/
theorem set_signers_validation_witness :
    set_signers wState 0 [4, 5] 2 =
      .ok { wState with signers := [4, 5], threshold := 2 } ∧
    set_signers wState 0 [4, 4] 2 = .error MultiSigError.DuplicateSigner :=
  ⟨(set_signers_validation wState 0 [4, 5] 2 rfl).2.2 (by decide) (by decide)
      (by decide) (by decide),
   (set_signers_validation wState 0 [4, 4] 2 rfl).2.1 (by decide) (by decide)
      (by decide) (by decide)⟩

/-! ## Inversion lemmas for committed (ok) invocations -/

theorem require_admin_ok_inv {s : ContractState} {caller : Addr} {u : Unit}
    (h : require_admin s caller = .ok u) : s.admin = some caller := by
  unfold require_admin at h
  split at h
  · cases h
  · rename_i a hadm
    by_cases hc : a = caller
    · rw [hadm, hc]
    · rw [if_neg hc] at h; cases h

theorem require_signer_ok_inv {s : ContractState} {a : Addr} {u : Unit}
    (h : require_signer s a = .ok u) : is_signer s a = true := by
  unfold require_signer at h
  by_cases hs : is_signer s a = true
  · exact hs
  · rw [if_neg hs] at h; cases h

theorem ensure_configured_ok_inv {s : ContractState} {u : Unit}
    (h : ensure_multisig_configured s = .ok u) :
    s.signers.length ≠ 0 ∧ s.threshold ≠ 0 ∧
      s.threshold ≤ s.signers.length := by
  unfold ensure_multisig_configured at h
  by_cases hb : s.signers.length = 0 ∨ s.threshold = 0 ∨
      s.threshold > s.signers.length
  · rw [if_pos hb] at h; cases h
  · push_neg at hb; exact hb

theorem validate_ok_inv {sg : List Addr} {t : Nat} {u : Unit}
    (h : validate_signer_config sg t = .ok u) :
    sg.length ≠ 0 ∧ t ≠ 0 ∧ t ≤ sg.length ∧ hasDuplicate sg = false := by
  unfold validate_signer_config at h
  by_cases hb : sg.length = 0 ∨ t = 0 ∨ t > sg.length
  · rw [if_pos hb] at h; cases h
  · rw [if_neg hb] at h
    push_neg at hb
    by_cases hd : hasDuplicate sg = true
    · rw [if_pos hd] at h; cases h
    · exact ⟨hb.1, hb.2.1, hb.2.2, by simpa using hd⟩

theorem record_approval_ok_inv {s s1 : ContractState} {txId : Nat} {a : Addr}
    {n : Nat} (h : record_approval s txId a = .ok (n, s1)) :
    has_approval s txId a = false ∧ n = s.approvalCounts txId + 1 ∧
      s.approvalCounts txId + 1 ≤ u32Max ∧
      s1 = { s with approvals := (txId, a) :: s.approvals
                    approvalCounts := updFn s.approvalCounts txId
                      (s.approvalCounts txId + 1) } := by
  unfold record_approval get_approval_count checkedAddU32 at h
  split at h
  · cases h
  · rename_i hd
    simp only [] at h
    by_cases hq : s.approvalCounts txId + 1 ≤ u32Max
    · rw [if_pos hq] at h
      injection h with h
      rw [Prod.mk.injEq] at h
      obtain ⟨h1, h2⟩ := h
      exact ⟨by simpa using hd, h1.symm, hq, h2.symm⟩
    · rw [if_neg hq] at h
      cases h

theorem execute_transfer_ok_inv {s s' : ContractState} {f t : Addr}
    {amount : Int} (h : execute_transfer s f t amount = .ok s') :
    s'.admin = s.admin ∧ s'.signers = s.signers ∧ s'.threshold = s.threshold ∧
      s'.highValueThreshold = s.highValueThreshold ∧
      s'.nextTxId = s.nextTxId ∧ s'.pendingTxs = s.pendingTxs ∧
      s'.approvals = s.approvals ∧ s'.approvalCounts = s.approvalCounts := by
  unfold execute_transfer balance_of at h
  simp only [] at h
  split at h
  · cases h
  · split at h
    · cases h
    · split at h
      · cases h
      · injection h with h
        subst h
        exact ⟨rfl, rfl, rfl, rfl, rfl, rfl, rfl, rfl⟩

theorem initContract_ok_inv {s s' : ContractState} {a : Addr}
    (h : initContract s a = .ok s') :
    s.admin = none ∧
      s' = { s with admin := some a, signers := [], threshold := 0,
                    highValueThreshold := i128Max, nextTxId := 0 } := by
  unfold initContract at h
  split at h
  · cases h
  · rename_i hadm
    injection h with h
    exact ⟨hadm, h.symm⟩

theorem set_signers_ok_inv {s s' : ContractState} {caller : Addr}
    {sg : List Addr} {t : Nat} (h : set_signers s caller sg t = .ok s') :
    s.admin = some caller ∧ sg.length ≠ 0 ∧ t ≠ 0 ∧ t ≤ sg.length ∧
      hasDuplicate sg = false ∧
      s' = { s with signers := sg, threshold := t } := by
  unfold set_signers at h
  split at h
  · cases h
  · rename_i u hra
    split at h
    · cases h
    · rename_i u2 hv
      injection h with h
      obtain ⟨h1, h2, h3, h4⟩ := validate_ok_inv hv
      exact ⟨require_admin_ok_inv hra, h1, h2, h3, h4, h.symm⟩

theorem set_hvt_ok_inv {s s' : ContractState} {caller : Addr} {amount : Int}
    (h : set_high_value_threshold s caller amount = .ok s') :
    s.admin = some caller ∧ 0 ≤ amount ∧
      s' = { s with highValueThreshold := amount } := by
  unfold set_high_value_threshold at h
  split at h
  · cases h
  · rename_i u hra
    by_cases hneg : amount < 0
    · rw [if_pos hneg] at h; cases h
    · rw [if_neg hneg] at h
      injection h with h
      exact ⟨require_admin_ok_inv hra, not_lt.mp hneg, h.symm⟩

theorem set_balance_ok_inv {s s' : ContractState} {caller user : Addr}
    {amount : Int} (h : set_balance s caller user amount = .ok s') :
    s.admin = some caller ∧ 0 ≤ amount ∧
      s' = { s with balances := updFn s.balances user amount } := by
  unfold set_balance at h
  split at h
  · cases h
  · rename_i u hra
    by_cases hneg : amount < 0
    · rw [if_pos hneg] at h; cases h
    · rw [if_neg hneg] at h
      injection h with h
      exact ⟨require_admin_ok_inv hra, not_lt.mp hneg, h.symm⟩

theorem submit_ok_inv {s s' : ContractState} {f t : Addr} {amount : Int}
    {payload : Nat} {asset : Option Addr} {now : Nat} {r : Option Nat}
    (h : submit_transaction s f t amount payload asset now = .ok (r, s')) :
    (r = none ∧ s'.admin = s.admin ∧ s'.signers = s.signers ∧
      s'.threshold = s.threshold ∧ s'.nextTxId = s.nextTxId ∧
      s'.pendingTxs = s.pendingTxs ∧ s'.approvals = s.approvals ∧
      s'.approvalCounts = s.approvalCounts) ∨
    (r = some (s.nextTxId + 1) ∧ s.signers.length ≠ 0 ∧ s.threshold ≠ 0 ∧
      s.threshold ≤ s.signers.length ∧
      s' = { s with
             nextTxId := s.nextTxId + 1
             pendingTxs := updFn s.pendingTxs (s.nextTxId + 1)
               (some { id := s.nextTxId + 1, fromAddr := f, toAddr := t,
                       amount := amount, payload := payload, asset := asset,
                       created_at := now, executed := false })
             approvalCounts := updFn s.approvalCounts (s.nextTxId + 1) 0 }) := by
  unfold submit_transaction get_high_value_threshold at h
  split at h
  · cases h
  · rename_i h0
    simp only [] at h
    split at h
    · -- low-value branch
      split at h
      · cases h
      · rename_i s1 he
        injection h with h
        rw [Prod.mk.injEq] at h
        obtain ⟨h1, h2⟩ := h
        subst h2
        obtain ⟨e1, e2, e3, _, e5, e6, e7, e8⟩ := execute_transfer_ok_inv he
        exact Or.inl ⟨h1.symm, e1, e2, e3, e5, e6, e7, e8⟩
    · -- high-value branch
      rename_i hge
      split at h
      · cases h
      · rename_i u hc
        unfold next_tx_id checkedAddU64 at h
        by_cases hof : s.nextTxId + 1 ≤ u64Max
        · rw [if_pos hof] at h
          simp only [] at h
          injection h with h
          rw [Prod.mk.injEq] at h
          obtain ⟨h1, h2⟩ := h
          obtain ⟨c1, c2, c3⟩ := ensure_configured_ok_inv hc
          exact Or.inr ⟨h1.symm, c1, c2, c3, h2.symm⟩
        · rw [if_neg hof] at h
          cases h

theorem approve_ok_inv {s s' : ContractState} {txId : Nat} {signer : Addr}
    (h : approve s txId signer = .ok s') :
    ∃ p : PendingTx, s.pendingTxs txId = some p ∧ p.executed = false ∧
      is_signer s signer = true ∧ has_approval s txId signer = false ∧
      s.approvalCounts txId + 1 ≤ u32Max ∧
      s'.admin = s.admin ∧ s'.signers = s.signers ∧
      s'.threshold = s.threshold ∧ s'.nextTxId = s.nextTxId ∧
      s'.approvals = (txId, signer) :: s.approvals ∧
      s'.approvalCounts =
        updFn s.approvalCounts txId (s.approvalCounts txId + 1) ∧
      ((s.approvalCounts txId + 1 < s.threshold ∧
          s'.pendingTxs = s.pendingTxs ∧ s'.balances = s.balances) ∨
       (s.threshold ≤ s.approvalCounts txId + 1 ∧
          s'.pendingTxs =
            updFn s.pendingTxs txId (some { p with executed := true }))) := by
  unfold approve get_threshold at h
  split at h
  · cases h
  · rename_i u hrs
    split at h
    · cases h
    · rename_i p hp
      split at h
      · cases h
      · rename_i hex
        cases hra : record_approval s txId signer with
        | error e => rw [hra] at h; cases h
        | ok q =>
          obtain ⟨n, s1⟩ := q
          rw [hra] at h
          obtain ⟨d1, d2, d3, d4⟩ := record_approval_ok_inv hra
          subst d2
          subst d4
          simp only [] at h
          by_cases hq : s.approvalCounts txId + 1 ≥ s.threshold
          · rw [if_pos hq] at h
            split at h
            · cases h
            · rename_i s3 he
              injection h with h
              subst h
              obtain ⟨e1, e2, e3, _, e5, e6, e7, e8⟩ := execute_transfer_ok_inv he
              exact ⟨p, hp, by simpa using hex, require_signer_ok_inv hrs, d1,
                d3, e1, e2, e3, e5, e7, e8, Or.inr ⟨hq, e6⟩⟩
          · rw [if_neg hq] at h
            injection h with h
            subst h
            exact ⟨p, hp, by simpa using hex, require_signer_ok_inv hrs, d1,
              d3, rfl, rfl, rfl, rfl, rfl, rfl, Or.inl ⟨by omega, rfl, rfl⟩⟩

/-! ## Storage invariant: counts, marks, id allocation -/

/-- Number of approval marks stored for `txId`. -/
def marksFor (s : ContractState) (txId : Nat) : Nat :=
  (s.approvals.filter (fun m => decide (m.1 = txId))).length

/-- Invariant maintained by every committed invocation: the mark list has no
duplicate `(id, signer)` pair, every stored count equals the number of marks
for its id, marks and pending records only exist for already-allocated ids,
and before initialization the registry and stores are empty. -/
structure StoreInv (s : ContractState) : Prop where
  nodup : s.approvals.Nodup
  counts : ∀ txId, s.approvalCounts txId = marksFor s txId
  bounded : ∀ m ∈ s.approvals, m.1 ≤ s.nextTxId
  pendingBounded : ∀ txId p, s.pendingTxs txId = some p → txId ≤ s.nextTxId
  uninit : s.admin = none →
    s.signers = [] ∧ s.approvals = [] ∧ ∀ txId, s.pendingTxs txId = none

theorem marksFor_cons_same (s : ContractState) (txId : Nat) (a : Addr) :
    marksFor { s with approvals := (txId, a) :: s.approvals } txId =
      marksFor s txId + 1 := by
  simp [marksFor, List.filter_cons]

theorem marksFor_cons_other (s : ContractState) (t txId : Nat) (a : Addr)
    (h : t ≠ txId) :
    marksFor { s with approvals := (txId, a) :: s.approvals } t =
      marksFor s t := by
  simp [marksFor, List.filter_cons, Ne.symm h]

theorem marksFor_fresh (s : ContractState) (inv : StoreInv s) (t : Nat)
    (h : s.nextTxId < t) : marksFor s t = 0 := by
  unfold marksFor
  rw [List.length_eq_zero]
  apply List.filter_eq_nil_iff.mpr
  intro m hm
  have := inv.bounded m hm
  simp only [decide_eq_true_eq]
  omega

theorem storeInv_step {s s' : ContractState} (inv : StoreInv s)
    (st : Step s s') : StoreInv s' := by
  cases st with
  | init_step h =>
    obtain ⟨hnone, rfl⟩ := initContract_ok_inv h
    obtain ⟨hsg, hap, hpt⟩ := inv.uninit hnone
    refine ⟨inv.nodup, inv.counts, ?_, ?_, ?_⟩
    · intro m hm
      have hm' : m ∈ s.approvals := hm
      rw [hap] at hm'
      cases hm'
    · intro t p hp'
      have hp'' : s.pendingTxs t = some p := hp'
      rw [hpt t] at hp''
      cases hp''
    · intro hA
      simp at hA
  | set_signers_step h =>
    obtain ⟨hadm, _, _, _, _, rfl⟩ := set_signers_ok_inv h
    refine ⟨inv.nodup, inv.counts, inv.bounded, inv.pendingBounded, ?_⟩
    intro hA
    have hA' : s.admin = none := hA
    rw [hadm] at hA'
    cases hA'
  | set_hvt_step h =>
    obtain ⟨hadm, _, rfl⟩ := set_hvt_ok_inv h
    refine ⟨inv.nodup, inv.counts, inv.bounded, inv.pendingBounded, ?_⟩
    intro hA
    have hA' : s.admin = none := hA
    rw [hadm] at hA'
    cases hA'
  | set_balance_step h =>
    obtain ⟨hadm, _, rfl⟩ := set_balance_ok_inv h
    refine ⟨inv.nodup, inv.counts, inv.bounded, inv.pendingBounded, ?_⟩
    intro hA
    have hA' : s.admin = none := hA
    rw [hadm] at hA'
    cases hA'
  | submit_step h =>
    rcases submit_ok_inv h with
      ⟨hr, ha, hs, ht, hn, hp, hap, hac⟩ | ⟨hr, hlen, ht0, htle, rfl⟩
    · refine ⟨?_, ?_, ?_, ?_, ?_⟩
      · rw [hap]; exact inv.nodup
      · intro t
        simp only [marksFor, hac, hap]
        exact inv.counts t
      · intro m hm
        rw [hap] at hm
        rw [hn]
        exact inv.bounded m hm
      · intro t p hpt
        rw [hp] at hpt
        rw [hn]
        exact inv.pendingBounded t p hpt
      · intro hA
        rw [ha] at hA
        obtain ⟨u1, u2, u3⟩ := inv.uninit hA
        exact ⟨by rw [hs, u1], by rw [hap, u2], fun t => by rw [hp]; exact u3 t⟩
    · refine ⟨inv.nodup, ?_, ?_, ?_, ?_⟩
      · intro t
        have hgoal : updFn s.approvalCounts (s.nextTxId + 1) 0 t =
            marksFor s t := by
          by_cases he : t = s.nextTxId + 1
          · subst he
            rw [updFn_same]
            exact (marksFor_fresh s inv (s.nextTxId + 1) (by omega)).symm
          · rw [updFn_other _ _ _ _ he]
            exact inv.counts t
        exact hgoal
      · intro m hm
        have hmb := inv.bounded m hm
        show m.1 ≤ s.nextTxId + 1
        omega
      · intro t p hpt
        show t ≤ s.nextTxId + 1
        by_cases he : t = s.nextTxId + 1
        · omega
        · have hpt' : updFn s.pendingTxs (s.nextTxId + 1) _ t = some p := hpt
          rw [updFn_other _ _ _ _ he] at hpt'
          have := inv.pendingBounded t p hpt'
          omega
      · intro hA
        obtain ⟨u1, _, _⟩ := inv.uninit hA
        exact absurd (by rw [u1]; rfl) hlen
  | @approve_step txId signer h =>
    obtain ⟨p, hp, hex, hsig, hdup, hcnt, e1, e2, e3, e5, e7, e8, hcase⟩ :=
      approve_ok_inv h
    have hmem : (txId, signer) ∉ s.approvals := by
      simpa [has_approval] using hdup
    have hnodup' : s'.approvals.Nodup := by
      rw [e7]
      exact List.nodup_cons.mpr ⟨hmem, inv.nodup⟩
    have hcounts' : ∀ t, s'.approvalCounts t = marksFor s' t := by
      intro t
      have hApEq : marksFor s' t =
          marksFor { s with approvals := (txId, signer) :: s.approvals } t := by
        unfold marksFor
        rw [e7]
      by_cases he : t = txId
      · subst he
        rw [e8, updFn_same, hApEq, marksFor_cons_same, inv.counts t]
      · rw [e8, updFn_other _ _ _ _ he, hApEq, marksFor_cons_other _ _ _ _ he,
          inv.counts t]
    refine ⟨hnodup', hcounts', ?_, ?_, ?_⟩
    · intro m hm
      rw [e7] at hm
      rw [e5]
      rcases List.mem_cons.mp hm with rfl | hm'
      · exact inv.pendingBounded txId p hp
      · exact inv.bounded m hm'
    · intro t q hq
      rw [e5]
      rcases hcase with ⟨_, hpt, _⟩ | ⟨_, hpt⟩
      · rw [hpt] at hq
        exact inv.pendingBounded t q hq
      · rw [hpt] at hq
        by_cases he : t = txId
        · subst he
          exact inv.pendingBounded t p hp
        · rw [updFn_other _ _ _ _ he] at hq
          exact inv.pendingBounded t q hq
    · intro hA
      rw [e1] at hA
      obtain ⟨u1, _, _⟩ := inv.uninit hA
      have hmem2 : signer ∈ s.signers := by
        simpa [is_signer] using hsig
      rw [u1] at hmem2
      cases hmem2

theorem reachable_storeInv {s : ContractState} (h : Reachable s) :
    StoreInv s := by
  induction h with
  | init =>
    refine ⟨List.nodup_nil, fun t => rfl, ?_, ?_, fun hA => ⟨rfl, rfl, fun t => rfl⟩⟩
    · intro m hm
      cases hm
    · intro t p hp
      cases hp
  | step hr hst ih => exact storeInv_step ih hst

/-! ## Approve success characterizations -/

theorem approve_partial_ok (s : ContractState) (txId : Nat) (signer : Addr)
    (p : PendingTx)
    (hp : s.pendingTxs txId = some p) (hex : p.executed = false)
    (hsig : is_signer s signer = true)
    (hdup : has_approval s txId signer = false)
    (hcnt : s.approvalCounts txId + 1 ≤ u32Max)
    (hlt : s.approvalCounts txId + 1 < s.threshold) :
    approve s txId signer = .ok
      { s with approvals := (txId, signer) :: s.approvals
               approvalCounts := updFn s.approvalCounts txId
                 (s.approvalCounts txId + 1) } := by
  unfold approve require_signer get_threshold
  simp only [hsig, if_true, hp, hex, Bool.false_eq_true, if_false,
    record_approval_ok s txId signer hdup hcnt]
  rw [if_neg (by omega : ¬ s.approvalCounts txId + 1 ≥ s.threshold)]

theorem approve_quorum_ok (s : ContractState) (txId : Nat) (signer : Addr)
    (p : PendingTx)
    (hp : s.pendingTxs txId = some p) (hex : p.executed = false)
    (hsig : is_signer s signer = true)
    (hdup : has_approval s txId signer = false)
    (hcnt : s.approvalCounts txId + 1 ≤ u32Max)
    (hq : s.threshold ≤ s.approvalCounts txId + 1)
    (hsuf : p.amount ≤ s.balances p.fromAddr)
    (hhi : s.balances p.fromAddr - p.amount ≤ i128Max)
    (hlo2 : i128Min ≤ s.balances p.toAddr + p.amount)
    (hhi2 : s.balances p.toAddr + p.amount ≤ i128Max) :
    approve s txId signer = .ok
      { s with approvals := (txId, signer) :: s.approvals
               approvalCounts := updFn s.approvalCounts txId
                 (s.approvalCounts txId + 1)
               pendingTxs := updFn s.pendingTxs txId
                 (some { p with executed := true })
               balances := updFn (updFn s.balances p.fromAddr
                 (s.balances p.fromAddr - p.amount)) p.toAddr
                 (s.balances p.toAddr + p.amount) } := by
  have hlo : i128Min ≤ s.balances p.fromAddr - p.amount := by
    have h0 : (0 : Int) ≤ s.balances p.fromAddr - p.amount := by omega
    have hm : i128Min ≤ (0 : Int) := by norm_num [i128Min]
    omega
  unfold approve require_signer get_threshold
  simp only [hsig, if_true, hp, hex, Bool.false_eq_true, if_false,
    record_approval_ok s txId signer hdup hcnt]
  rw [if_pos (show s.approvalCounts txId + 1 ≥ s.threshold from hq)]
  simp only [execute_transfer, balance_of, checkedSubI128, checkedAddI128]
  rw [if_neg (not_lt.mpr hsuf)]
  simp only [if_pos (And.intro hlo hhi), if_pos (And.intro hlo2 hhi2)]

theorem record_approval_dup (s : ContractState) (txId : Nat) (a : Addr)
    (hdup : has_approval s txId a = true) :
    record_approval s txId a = .error MultiSigError.DuplicateApproval := by
  unfold record_approval
  rw [if_pos hdup]

/-! ## C8 — approval count equals the distinct marks; duplicates rejected -/

/-- C8: in every reachable state the mark list holds no duplicate
`(id, signer)` pair and the stored approval count of every id equals the
number of approval marks recorded for it (hence the number of distinct
marks); and an approve call by a signer who already approved that id fails
with `DuplicateApproval` — the aborted call leaves both the count and the
mark set unchanged. -/
theorem approval_count_invariant :
    (∀ s, Reachable s → s.approvals.Nodup ∧
      ∀ txId, s.approvalCounts txId = marksFor s txId) ∧
    (∀ s txId signer (p : PendingTx), s.pendingTxs txId = some p →
      p.executed = false → is_signer s signer = true →
      has_approval s txId signer = true →
      approve s txId signer = .error MultiSigError.DuplicateApproval) := by
  constructor
  · intro s hr
    have inv := reachable_storeInv hr
    exact ⟨inv.nodup, inv.counts⟩
  · intro s txId signer p hp hex hsig hdup
    unfold approve require_signer
    simp only [hsig, if_true, hp, hex, Bool.false_eq_true, if_false,
      record_approval_dup s txId signer hdup]

/-- Registry `[1, 2]` with threshold `2`, pending transaction `1` already
approved by signer `1` (count `1`). -/
def dupState : ContractState :=
  { admin := some 0
    signers := [1, 2]
    threshold := 2
    highValueThreshold := 100
    nextTxId := 1
    pendingTxs := fun k =>
      if k = 1 then
        some { id := 1, fromAddr := 10, toAddr := 11, amount := 300, payload := 0,
               asset := none, created_at := 0, executed := false }
      else none
    approvals := [(1, 1)]
    approvalCounts := fun k => if k = 1 then 1 else 0
    balances := fun a => if a = 10 then 1000 else 0 }

/-- Witness for C8: the empty store satisfies the count invariant, and signer
`1` re-approving transaction `1` of `dupState` fails with
`DuplicateApproval`. -/
theorem approval_count_invariant_witness :
    (initState.approvals.Nodup ∧
      ∀ txId, initState.approvalCounts txId = marksFor initState txId) ∧
    approve dupState 1 1 = .error MultiSigError.DuplicateApproval :=
  ⟨approval_count_invariant.1 initState Reachable.init,
   approval_count_invariant.2 dupState 1 1
     { id := 1, fromAddr := 10, toAddr := 11, amount := 300, payload := 0,
       asset := none, created_at := 0, executed := false } rfl rfl rfl rfl⟩

/-! ## C10 — approvals survive reconfiguration; threshold read at call time -/

/-- C10: (1) every committed invocation — including `set_signers`
reconfiguration — preserves every stored approval mark and never decreases an
approval count, so marks recorded by signers later removed from the registry
keep counting toward quorum; (2) `approve` decides execution by comparing the
incremented count against the registry threshold as stored at the time of the
call (`s.threshold`), there being no per-transaction snapshot of the
threshold: below it the call only records the mark, at or above it the call
executes the transaction. -/
theorem approvals_survive_reconfiguration :
    (∀ s s', Reachable s → Step s s' →
      (∀ m ∈ s.approvals, m ∈ s'.approvals) ∧
      (∀ txId, s.approvalCounts txId ≤ s'.approvalCounts txId)) ∧
    (∀ s txId signer (p : PendingTx), s.pendingTxs txId = some p →
      p.executed = false → is_signer s signer = true →
      has_approval s txId signer = false →
      s.approvalCounts txId + 1 ≤ u32Max →
      (s.approvalCounts txId + 1 < s.threshold →
        approve s txId signer = .ok
          { s with approvals := (txId, signer) :: s.approvals
                   approvalCounts := updFn s.approvalCounts txId
                     (s.approvalCounts txId + 1) }) ∧
      (s.threshold ≤ s.approvalCounts txId + 1 →
        p.amount ≤ s.balances p.fromAddr →
        s.balances p.fromAddr - p.amount ≤ i128Max →
        i128Min ≤ s.balances p.toAddr + p.amount →
        s.balances p.toAddr + p.amount ≤ i128Max →
        ∃ s', approve s txId signer = .ok s' ∧
          s'.pendingTxs txId = some { p with executed := true })) := by
  constructor
  · intro s s' hr hst
    have inv := reachable_storeInv hr
    cases hst with
    | init_step h =>
      obtain ⟨hnone, rfl⟩ := initContract_ok_inv h
      exact ⟨fun m hm => hm, fun txId => le_refl _⟩
    | set_signers_step h =>
      obtain ⟨_, _, _, _, _, rfl⟩ := set_signers_ok_inv h
      exact ⟨fun m hm => hm, fun txId => le_refl _⟩
    | set_hvt_step h =>
      obtain ⟨_, _, rfl⟩ := set_hvt_ok_inv h
      exact ⟨fun m hm => hm, fun txId => le_refl _⟩
    | set_balance_step h =>
      obtain ⟨_, _, rfl⟩ := set_balance_ok_inv h
      exact ⟨fun m hm => hm, fun txId => le_refl _⟩
    | submit_step h =>
      rcases submit_ok_inv h with
        ⟨_, _, _, _, _, _, hap, hac⟩ | ⟨_, _, _, _, rfl⟩
      · exact ⟨fun m hm => by rw [hap]; exact hm, fun txId => by rw [hac]⟩
      · refine ⟨fun m hm => hm, fun txId => ?_⟩
        show s.approvalCounts txId ≤ updFn s.approvalCounts (s.nextTxId + 1) 0 txId
        by_cases he : txId = s.nextTxId + 1
        · subst he
          rw [updFn_same, inv.counts, marksFor_fresh s inv _ (by omega)]
        · rw [updFn_other _ _ _ _ he]
    | @approve_step txId0 signer h =>
      obtain ⟨p, hp, hex, hsig, hdup, hcnt, e1, e2, e3, e5, e7, e8, hcase⟩ :=
        approve_ok_inv h
      refine ⟨fun m hm => by rw [e7]; exact List.mem_cons_of_mem _ hm,
        fun txId => ?_⟩
      rw [e8]
      by_cases he : txId = txId0
      · subst he
        rw [updFn_same]
        omega
      · rw [updFn_other _ _ _ _ he]
  · intro s txId signer p hp hex hsig hdup hcnt
    constructor
    · intro hlt
      exact approve_partial_ok s txId signer p hp hex hsig hdup hcnt hlt
    · intro hq hsuf hhi hlo2 hhi2
      refine ⟨_, approve_quorum_ok s txId signer p hp hex hsig hdup hcnt hq
        hsuf hhi hlo2 hhi2, ?_⟩
      simp [updFn]

/-- Fresh two-signer pending state: signers `[1, 2]`, threshold `2`, an
unexecuted pending transaction `1` with no approvals, account `10` holding
`1000`. -/
def pend2State : ContractState :=
  { admin := some 0
    signers := [1, 2]
    threshold := 2
    highValueThreshold := 100
    nextTxId := 1
    pendingTxs := fun k =>
      if k = 1 then
        some { id := 1, fromAddr := 10, toAddr := 11, amount := 300, payload := 0,
               asset := none, created_at := 0, executed := false }
      else none
    approvals := []
    approvalCounts := fun _ => 0
    balances := fun a => if a = 10 then 1000 else 0 }

/-- Witness for C10: on the concrete initialization step marks are preserved,
and on `pend2State` (threshold `2`, count `0`) the first approve only records
the mark. -/
theorem approvals_survive_reconfiguration_witness :
    (∀ m ∈ initState.approvals,
      m ∈ ({ initState with admin := some 7 } : ContractState).approvals) ∧
    approve pend2State 1 1 = .ok
      { pend2State with approvals := [(1, 1)]
                        approvalCounts := updFn pend2State.approvalCounts 1 1 } :=
  ⟨(approvals_survive_reconfiguration.1 initState _ Reachable.init
      (Step.init_step (rfl : initContract initState 7 = .ok _))).1,
   (approvals_survive_reconfiguration.2 pend2State 1 1
     { id := 1, fromAddr := 10, toAddr := 11, amount := 300, payload := 0,
       asset := none, created_at := 0, executed := false }
     rfl rfl rfl rfl (by decide)).1 (by decide)⟩

/-! ## C1 — quorum exactness along an approval trace -/

theorem approveRun_append_ok {s s' : ContractState} {txId : Nat}
    {l1 : List Addr} (l2 : List Addr)
    (h : approveRun s txId l1 = .ok s') :
    approveRun s txId (l1 ++ l2) = approveRun s' txId l2 := by
  induction l1 generalizing s with
  | nil =>
    injection h with h
    subst h
    rfl
  | cons a rest ih =>
    simp only [List.cons_append, approveRun] at h ⊢
    cases ha : approve s txId a with
    | error e =>
      rw [ha] at h
      exact Except.noConfusion h
    | ok s1 =>
      rw [ha] at h
      exact ih h

theorem approveRun_cons_error {s : ContractState} {txId : Nat} {a : Addr}
    {e : MultiSigError} (l : List Addr) (h : approve s txId a = .error e) :
    approveRun s txId (a :: l) = .error e := by
  simp only [approveRun]
  rw [h]

theorem approve_executed_error (s : ContractState) (txId : Nat) (a : Addr)
    (p : PendingTx) (hp : s.pendingTxs txId = some p) (hex : p.executed = true)
    (hsig : is_signer s a = true) :
    approve s txId a = .error MultiSigError.AlreadyExecuted := by
  unfold approve require_signer
  simp [hsig, hp, hex]

/-- Prefix invariant for the quorum-exactness trace: after `k < threshold`
approvals by the first `k` signers of `ss`, the run has succeeded and only the
marks for `txId` and its count have changed. -/
theorem approveRun_partial (s0 : ContractState) (txId : Nat) (p : PendingTx)
    (ss : List Addr)
    (hp : s0.pendingTxs txId = some p) (hex : p.executed = false)
    (hcnt0 : s0.approvalCounts txId = 0)
    (hmarks0 : ∀ a : Addr, (txId, a) ∉ s0.approvals)
    (ht2 : s0.threshold ≤ s0.signers.length)
    (hlen : s0.signers.length ≤ u32Max)
    (hnd : ss.Nodup) (hmem : ∀ a ∈ ss, a ∈ s0.signers) :
    ∀ k, k ≤ ss.length → k < s0.threshold →
      ∃ sk, approveRun s0 txId (ss.take k) = .ok sk ∧
        sk.signers = s0.signers ∧ sk.threshold = s0.threshold ∧
        sk.balances = s0.balances ∧
        sk.pendingTxs = s0.pendingTxs ∧
        sk.approvalCounts txId = k ∧
        (∀ t, t ≠ txId → sk.approvalCounts t = s0.approvalCounts t) ∧
        (∀ a : Addr, (txId, a) ∈ sk.approvals ↔ a ∈ ss.take k) := by
  intro k
  induction k with
  | zero =>
    intro _ _
    refine ⟨s0, rfl, rfl, rfl, rfl, rfl, hcnt0, fun t ht => rfl, ?_⟩
    intro a
    simp [hmarks0 a]
  | succ k ih =>
    intro hk1 hkt
    obtain ⟨sk, hrun, hsg, hth, hbal, hpend, hcnt, hcnt2, hmr⟩ :=
      ih (by omega) (by omega)
    have hklen : k < ss.length := by omega
    have hamem : ss.get ⟨k, hklen⟩ ∈ s0.signers :=
      hmem _ (ss.get_mem _ _)
    have hanotk : ss.get ⟨k, hklen⟩ ∉ ss.take k := by
      intro hmemtake
      rw [List.mem_take_iff_getElem] at hmemtake
      obtain ⟨m, hm, he⟩ := hmemtake
      have hmn : m < k := lt_of_lt_of_le hm inf_le_left
      have hml : m < ss.length := lt_of_lt_of_le hm inf_le_right
      have : m = k := (List.Nodup.getElem_inj_iff hnd).mp he
      omega
    have htake : ss.take (k + 1) = ss.take k ++ [ss.get ⟨k, hklen⟩] :=
      (List.take_concat_get' ss k hklen).symm
    have hpk : sk.pendingTxs txId = some p := by rw [hpend]; exact hp
    have hsigk : is_signer sk (ss.get ⟨k, hklen⟩) = true := by
      unfold is_signer
      rw [hsg]
      simpa using hamem
    have hdupk : has_approval sk txId (ss.get ⟨k, hklen⟩) = false := by
      unfold has_approval
      simp only [decide_eq_false_iff_not]
      intro hc
      exact hanotk ((hmr _).mp hc)
    have hcntk : sk.approvalCounts txId + 1 ≤ u32Max := by
      rw [hcnt]
      omega
    have hstep := approve_partial_ok sk txId (ss.get ⟨k, hklen⟩) p hpk hex
      hsigk hdupk hcntk (by rw [hcnt, hth]; omega)
    refine ⟨{ sk with
              approvals := (txId, ss.get ⟨k, hklen⟩) :: sk.approvals
              approvalCounts := updFn sk.approvalCounts txId
                (sk.approvalCounts txId + 1) },
      ?_, hsg, hth, hbal, hpend, ?_, ?_, ?_⟩
    · rw [htake, approveRun_append_ok [ss.get ⟨k, hklen⟩] hrun]
      simp only [approveRun]
      rw [hstep]
    · simp only [updFn_same]
      rw [hcnt]
    · intro t ht
      simp only [updFn_other sk.approvalCounts txId t
        (sk.approvalCounts txId + 1) ht]
      exact hcnt2 t ht
    · intro b
      rw [htake]
      simp only [List.mem_cons, List.mem_append, List.mem_singleton,
        Prod.mk.injEq, true_and, hmr b]
      tauto

/-- Crossing the threshold: the run over the first `threshold` signers of
`ss` succeeds, executing the transaction on its last call. -/
theorem approveRun_reach (s0 : ContractState) (txId : Nat) (p : PendingTx)
    (ss : List Addr)
    (hp : s0.pendingTxs txId = some p) (hex : p.executed = false)
    (hcnt0 : s0.approvalCounts txId = 0)
    (hmarks0 : ∀ a : Addr, (txId, a) ∉ s0.approvals)
    (ht1 : 1 ≤ s0.threshold) (ht2 : s0.threshold ≤ s0.signers.length)
    (hlen : s0.signers.length ≤ u32Max)
    (hnd : ss.Nodup) (hmem : ∀ a ∈ ss, a ∈ s0.signers)
    (htlen : s0.threshold ≤ ss.length)
    (hsuf : p.amount ≤ s0.balances p.fromAddr)
    (hhi : s0.balances p.fromAddr - p.amount ≤ i128Max)
    (hlo2 : i128Min ≤ s0.balances p.toAddr + p.amount)
    (hhi2 : s0.balances p.toAddr + p.amount ≤ i128Max) :
    ∃ sT, approveRun s0 txId (ss.take s0.threshold) = .ok sT ∧
      sT.signers = s0.signers ∧
      sT.pendingTxs txId = some { p with executed := true } ∧
      sT.approvalCounts txId = s0.threshold ∧
      sT.balances = updFn (updFn s0.balances p.fromAddr
        (s0.balances p.fromAddr - p.amount)) p.toAddr
        (s0.balances p.toAddr + p.amount) := by
  obtain ⟨k, hk⟩ : ∃ k, s0.threshold = k + 1 := ⟨s0.threshold - 1, by omega⟩
  obtain ⟨sk, hrun, hsg, hth, hbal, hpend, hcnt, hcnt2, hmr⟩ :=
    approveRun_partial s0 txId p ss hp hex hcnt0 hmarks0 ht2 hlen hnd hmem k
      (by omega) (by omega)
  have hklen : k < ss.length := by omega
  have hamem : ss.get ⟨k, hklen⟩ ∈ s0.signers := hmem _ (ss.get_mem _ _)
  have hanotk : ss.get ⟨k, hklen⟩ ∉ ss.take k := by
    intro hmemtake
    rw [List.mem_take_iff_getElem] at hmemtake
    obtain ⟨m, hm, he⟩ := hmemtake
    have hmn : m < k := lt_of_lt_of_le hm inf_le_left
    have hml : m < ss.length := lt_of_lt_of_le hm inf_le_right
    have : m = k := (List.Nodup.getElem_inj_iff hnd).mp he
    omega
  have htake : ss.take (k + 1) = ss.take k ++ [ss.get ⟨k, hklen⟩] :=
    (List.take_concat_get' ss k hklen).symm
  have hpk : sk.pendingTxs txId = some p := by rw [hpend]; exact hp
  have hsigk : is_signer sk (ss.get ⟨k, hklen⟩) = true := by
    unfold is_signer
    rw [hsg]
    simpa using hamem
  have hdupk : has_approval sk txId (ss.get ⟨k, hklen⟩) = false := by
    unfold has_approval
    simp only [decide_eq_false_iff_not]
    intro hc
    exact hanotk ((hmr _).mp hc)
  have hcntk : sk.approvalCounts txId + 1 ≤ u32Max := by
    rw [hcnt]
    omega
  have hq : sk.threshold ≤ sk.approvalCounts txId + 1 := by
    rw [hcnt, hth]
    omega
  have hstep := approve_quorum_ok sk txId (ss.get ⟨k, hklen⟩) p hpk hex hsigk
    hdupk hcntk hq (by rw [hbal]; exact hsuf) (by rw [hbal]; exact hhi)
    (by rw [hbal]; exact hlo2) (by rw [hbal]; exact hhi2)
  refine ⟨{ sk with
            approvals := (txId, ss.get ⟨k, hklen⟩) :: sk.approvals
            approvalCounts := updFn sk.approvalCounts txId
              (sk.approvalCounts txId + 1)
            pendingTxs := updFn sk.pendingTxs txId
              (some { p with executed := true })
            balances := updFn (updFn sk.balances p.fromAddr
              (sk.balances p.fromAddr - p.amount)) p.toAddr
              (sk.balances p.toAddr + p.amount) }, ?_, ?_, ?_, ?_, ?_⟩
  · rw [hk, htake, approveRun_append_ok [ss.get ⟨k, hklen⟩] hrun]
    simp only [approveRun]
    rw [hstep]
  · exact hsg
  · simp only [updFn_same]
  · simp only [updFn_same]
    rw [hcnt, hk]
  · rw [hbal]

/-- C1: with a registry holding threshold `t` (`1 ≤ t ≤ #signers`) fixed for
the whole run, a freshly submitted pending transaction approved successively
by any list of distinct authorized signers executes exactly on the `t`-th
successful approve call: every shorter prefix leaves it unexecuted with
balances untouched and count equal to the number of calls made, the call
taking the count from `t - 1` to `t` performs the ledger transfer and sets
the executed flag, and every longer run aborts with `AlreadyExecuted` — all
regardless of which signers appear or in which order. -/
theorem quorum_exactness (s0 : ContractState) (txId : Nat) (p : PendingTx)
    (ss : List Addr)
    (hp : s0.pendingTxs txId = some p) (hex : p.executed = false)
    (hcnt0 : s0.approvalCounts txId = 0)
    (hmarks0 : ∀ a : Addr, (txId, a) ∉ s0.approvals)
    (ht1 : 1 ≤ s0.threshold) (ht2 : s0.threshold ≤ s0.signers.length)
    (hlen : s0.signers.length ≤ u32Max)
    (hnd : ss.Nodup) (hmem : ∀ a ∈ ss, a ∈ s0.signers)
    (hsuf : p.amount ≤ s0.balances p.fromAddr)
    (hhi : s0.balances p.fromAddr - p.amount ≤ i128Max)
    (hlo2 : i128Min ≤ s0.balances p.toAddr + p.amount)
    (hhi2 : s0.balances p.toAddr + p.amount ≤ i128Max) :
    ∀ k, k ≤ ss.length →
      ((k < s0.threshold → ∃ sk,
          approveRun s0 txId (ss.take k) = .ok sk ∧
          sk.approvalCounts txId = k ∧ sk.pendingTxs txId = some p ∧
          sk.balances = s0.balances) ∧
       (k = s0.threshold → ∃ sk,
          approveRun s0 txId (ss.take k) = .ok sk ∧
          sk.approvalCounts txId = k ∧
          sk.pendingTxs txId = some { p with executed := true } ∧
          sk.balances = updFn (updFn s0.balances p.fromAddr
            (s0.balances p.fromAddr - p.amount)) p.toAddr
            (s0.balances p.toAddr + p.amount)) ∧
       (s0.threshold < k →
          approveRun s0 txId (ss.take k) = .error
            MultiSigError.AlreadyExecuted)) := by
  intro k hk
  refine ⟨?_, ?_, ?_⟩
  · intro hkt
    obtain ⟨sk, hrun, _, _, hbal, hpend, hcnt, _, _⟩ :=
      approveRun_partial s0 txId p ss hp hex hcnt0 hmarks0 ht2 hlen hnd hmem
        k hk hkt
    exact ⟨sk, hrun, hcnt, by rw [hpend]; exact hp, hbal⟩
  · intro hkeq
    subst hkeq
    obtain ⟨sT, hrun, _, hpendT, hcntT, hbalT⟩ :=
      approveRun_reach s0 txId p ss hp hex hcnt0 hmarks0 ht1 ht2 hlen hnd
        hmem hk hsuf hhi hlo2 hhi2
    exact ⟨sT, hrun, hcntT, hpendT, hbalT⟩
  · intro hkt
    obtain ⟨sT, hrun, hsgT, hpendT, _, _⟩ :=
      approveRun_reach s0 txId p ss hp hex hcnt0 hmarks0 ht1 ht2 hlen hnd
        hmem (by omega) hsuf hhi hlo2 hhi2
    have htltlen : s0.threshold < ss.length := by omega
    have hsplit : ss.take k = ss.take s0.threshold ++
        (ss.drop s0.threshold).take (k - s0.threshold) := by
      have h1 : k = s0.threshold + (k - s0.threshold) := by omega
      conv_lhs => rw [h1]
      rw [List.take_add]
    have hdropc : ss.drop s0.threshold =
        ss.get ⟨s0.threshold, htltlen⟩ :: ss.drop (s0.threshold + 1) :=
      List.drop_eq_getElem_cons htltlen
    have h2 : k - s0.threshold = (k - s0.threshold - 1) + 1 := by omega
    have hbmem : ss.get ⟨s0.threshold, htltlen⟩ ∈ s0.signers :=
      hmem _ (ss.get_mem _ _)
    have hsigb : is_signer sT (ss.get ⟨s0.threshold, htltlen⟩) = true := by
      unfold is_signer
      rw [hsgT]
      simpa using hbmem
    have herr := approve_executed_error sT txId (ss.get ⟨s0.threshold, htltlen⟩)
      { p with executed := true } hpendT rfl hsigb
    rw [hsplit, approveRun_append_ok _ hrun, hdropc, h2, List.take_succ_cons]
    exact approveRun_cons_error _ herr

/-- The pending transaction stored at id `1` of `pend2State`. -/
def pend2Tx : PendingTx :=
  { id := 1, fromAddr := 10, toAddr := 11, amount := 300, payload := 0,
    asset := none, created_at := 0, executed := false }

/-- Witness for C1: on `pend2State` (threshold `2`), the run by signers
`[2, 1]` — in scrambled order — executes the transaction exactly on the
second call, moving `300` from account `10` to account `11`. -/
theorem quorum_exactness_witness :
    ∃ sk, approveRun pend2State 1 [2, 1] = .ok sk ∧
      sk.approvalCounts 1 = 2 ∧
      sk.pendingTxs 1 = some { pend2Tx with executed := true } ∧
      sk.balances = updFn (updFn pend2State.balances 10
        (pend2State.balances 10 - 300)) 11 (pend2State.balances 11 + 300) :=
  ((quorum_exactness pend2State 1 pend2Tx [2, 1] rfl rfl rfl
      (by simp [pend2State])
      (by decide) (by decide) (by decide) (by decide) (by decide) (by decide)
      (by decide) (by decide) (by decide) 2 (by decide)).2.1 rfl)
